import Mathlib

/-!
Verification of the linguist language-classification core.

This file gives a shallow embedding of the classification engine:
the extension extractor (`src/utils.rs`), the classifier facade and the
heuristic rule interpreter (`src/lib.rs`), together with theorems that
settle the frozen claims about them.

Modelling conventions:
* Rust strings are modelled as `List Char`; `str::ends_with` becomes
  `List.isSuffixOf`, byte positions of `char_indices` become list indices
  (slicing only ever happens at a character boundary, so the two agree).
* The dataset (`definitions::LANGUAGES`, `definitions::HEURISTICS`,
  `definitions::VENDOR`) is generated at build time from data files that are
  not part of the sources; per the specification it is an external,
  immutable input, so every operation is parameterised by it.  The
  `HashMap` of languages is modelled as an association list (its iteration
  order is arbitrary), heuristics keep their declared order.
* The `regex` crate is external; only compile-success and the boolean
  match outcome matter to the claims, so a regex engine is a parameter
  `RegexEngine` mapping a pattern string to either a compile error or a
  matcher function (the unanchored `is_match`).
* Fallible Rust functions returning `Result<T, LinguistError>` become
  `Except LinguistError T`.
-/

/-- Converts a Lean string literal to the `List Char` used to model Rust strings. -/
def chars (s : String) : List Char := s.data

/-- `LanguageType` from `linguist-types/src/lib.rs` (`data`, `programming`, `markup`, `prose`). -/
inductive LanguageType where
  | data
  | programming
  | markup
  | prose
deriving DecidableEq

/-- `Language` (renamed `LanguageDef`: Mathlib already declares `Language`) from `linguist-types/src/lib.rs`: one entry of `languages.yml`. -/
structure LanguageDef where
  language_type : LanguageType
  ace_mode : List Char
  tm_scope : List Char
  language_id : Int
  extensions : Option (List (List Char))
  filenames : Option (List (List Char))
  aliases : Option (List (List Char))
  interpreters : Option (List (List Char))
  color : Option (List Char)
  codemirror_mode : Option (List Char)
  codemirror_mime_type : Option (List Char)
  group : Option (List Char)
  fs_name : Option (List Char)
  wrap : Option Bool
deriving DecidableEq

/-- `LinguistError` from `src/error.rs`. -/
inductive LinguistError where
  /-- The provided path contains invalid UTF-8 sequences -/
  | InvalidPath (message : List Char)
  /-- The provided path has no filename component (e.g., is root "/") -/
  | NoFilename
  /-- A regex pattern in the heuristics is malformed -/
  | InvalidRegex (pattern : List Char) (error : List Char)
  /-- A named pattern referenced in heuristics doesn't exist -/
  | MissingNamedPattern (name : List Char)
deriving DecidableEq

/-- `HeuristicRule` from `linguist-types/src/lib.rs`; the `and` field makes it recursive. -/
inductive HeuristicRule where
  | mk (language : Option (List (List Char)))
       (pattern : Option (List (List Char)))
       (negative_pattern : Option (List (List Char)))
       (named_pattern : Option (List Char))
       (and : Option (List HeuristicRule))

/-- Projection for the `language` field of `HeuristicRule`. -/
def HeuristicRule.language : HeuristicRule → Option (List (List Char))
  | .mk l _ _ _ _ => l

/-- Projection for the `pattern` field of `HeuristicRule`. -/
def HeuristicRule.pattern : HeuristicRule → Option (List (List Char))
  | .mk _ p _ _ _ => p

/-- Projection for the `negative_pattern` field of `HeuristicRule`. -/
def HeuristicRule.negative_pattern : HeuristicRule → Option (List (List Char))
  | .mk _ _ n _ _ => n

/-- Projection for the `named_pattern` field of `HeuristicRule`. -/
def HeuristicRule.named_pattern : HeuristicRule → Option (List Char)
  | .mk _ _ _ n _ => n

/-- Projection for the `and` field of `HeuristicRule`. -/
def HeuristicRule.and : HeuristicRule → Option (List HeuristicRule)
  | .mk _ _ _ _ a => a

/-- `Disambiguation` from `linguist-types/src/lib.rs`: a block of rules for some extensions. -/
structure Disambiguation where
  extensions : List (List Char)
  rules : List HeuristicRule

/-- `Heuristics` from `linguist-types/src/lib.rs`: the root of `heuristics.yml`.
The `HashMap` of named patterns is modelled as an association list. -/
structure Heuristics where
  disambiguations : List Disambiguation
  named_patterns : List (List Char × List (List Char))

/-- Key lookup in an association list; models `HashMap::get` (order of entries is
irrelevant when keys are unique, which the dataset guarantees). -/
def lookupTable {α : Type} : List (List Char × α) → List Char → Option α
  | [], _ => none
  | (k, v) :: rest, n => if k = n then some v else lookupTable rest n

/-- Abstraction of the `regex` crate: `compile` models `Regex::new`, returning
either a compile-error message or the unanchored `is_match` predicate. -/
structure RegexEngine where
  compile : List Char → Except (List Char) (List Char → Bool)

/-- Abstraction of a Rust `Path` argument, keeping exactly the observations the
core makes of it: `file_name` models `Path::file_name().map(|o| o.to_str())`
(`none`: no final filename component; `some none`: the filename is not valid
UTF-8; `some (some f)`: UTF-8 filename `f`); `to_str` models `Path::to_str()`
on the whole path; `debug_repr` models `format!("{:?}", path)`. -/
structure RustPath where
  file_name : Option (Option (List Char))
  to_str : Option (List Char)
  debug_repr : List Char

/-- The message of the `InvalidPath` error the facade returns when
`Path::file_name` yields `None` (`src/lib.rs`, e.g. lines 50-54). -/
def notAFilenameMsg : List Char := chars (r"Not a filename")

/-- The shared filename-extraction prologue of the facade operations
(`src/lib.rs` lines 50-54, 112-116, 168-172; also `get_filename_from_path`
in `src/utils.rs`). -/
def get_filename (p : RustPath) : Except LinguistError (List Char) :=
  match p.file_name with
  | none => .error (.InvalidPath notAFilenameMsg)
  | some none => .error (.InvalidPath p.debug_repr)
  | some (some f) => .ok f

/-- The positions of `.` characters of a filename, in increasing order: the
`char_indices().filter_map(...)` pipeline of `extract_extensions`
(`src/utils.rs` lines 60-63); also used to model `str::find('.')` (its head)
and `str::rfind('.')` (its last element). -/
def dotPositions (f : List Char) : List Nat :=
  (f.enum.filter (fun ic => ic.2 = '.')).map Prod.fst

/-- `extract_extensions` from `src/utils.rs` lines 58-72: all dot-suffixes of
the filename, generated from the reversed dot positions (shortest first). -/
def extract_extensions (f : List Char) : List (List Char) :=
  ((dotPositions f).reverse).map (fun pos => f.drop pos)

/-- The candidate-extension computation inlined in `disambiguate`
(`src/lib.rs` lines 177-187): push the suffix from the first dot
(`str::find`), then, if distinct, the suffix from the last dot (`str::rfind`). -/
def disambExtensions (f : List Char) : List (List Char) :=
  match (dotPositions f).head? with
  | none => []
  | some dot_pos =>
    match (dotPositions f).getLast? with
    | none => [f.drop dot_pos]
    | some last_dot_pos =>
      if last_dot_pos ≠ dot_pos
      then [f.drop dot_pos, f.drop last_dot_pos]
      else [f.drop dot_pos]

/-- The per-language test of the `detect_language_by_extension` loop body
(`src/lib.rs` lines 62-73): does the filename end with one of the language's
registered extensions? -/
def has_matching_ext (f : List Char) (lang : LanguageDef) : Bool :=
  match lang.extensions with
  | some exts => exts.any (fun ext => ext.isSuffixOf f)
  | none => false

/-- The language scan of `detect_language_by_extension` (`src/lib.rs` lines
58-73): the loop pushes each entry whose language has a matching extension
(breaking after the first matching extension, so each entry at most once),
i.e. it filters the language table in iteration order. -/
def by_extension_scan (f : List Char) (langs : List (List Char × LanguageDef)) :
    List (List Char × LanguageDef) :=
  langs.filter (fun e => has_matching_ext f e.2)

/-- `detect_language_by_extension` from `src/lib.rs` lines 43-76, with the
language table passed explicitly. -/
def detect_language_by_extension (langs : List (List Char × LanguageDef)) (p : RustPath) :
    Except LinguistError (List (List Char × LanguageDef)) :=
  match get_filename p with
  | .error e => .error e
  | .ok f => .ok (by_extension_scan f langs)

/-- The per-language test of the `detect_language_by_filename` loop body
(`src/lib.rs` lines 124-130): exact match against the registered filenames. -/
def has_matching_filename (f : List Char) (lang : LanguageDef) : Bool :=
  match lang.filenames with
  | some fns => fns.any (fun x => x = f)
  | none => false

/-- The language scan of `detect_language_by_filename` (`src/lib.rs` lines
120-130), a filter of the table in iteration order. -/
def by_filename_scan (f : List Char) (langs : List (List Char × LanguageDef)) :
    List (List Char × LanguageDef) :=
  langs.filter (fun e => has_matching_filename f e.2)

/-- `detect_language_by_filename` from `src/lib.rs` lines 105-133. -/
def detect_language_by_filename (langs : List (List Char × LanguageDef)) (p : RustPath) :
    Except LinguistError (List (List Char × LanguageDef)) :=
  match get_filename p with
  | .error e => .error e
  | .ok f => .ok (by_filename_scan f langs)

/-- `matches_pattern` from `src/lib.rs` lines 278-295 (and, with identical
control flow, `src/utils.rs` lines 89-101): compile each pattern in list
order; a compile failure becomes `InvalidRegex`; return `Ok(true)` at the
first pattern whose regex matches; `Ok(false)` after the list is exhausted. -/
def matches_pattern (en : RegexEngine) : List (List Char) → List Char →
    Except LinguistError Bool
  | [], _ => .ok false
  | pattern :: rest, content =>
    match en.compile pattern with
    | .error e => .error (.InvalidRegex pattern e)
    | .ok regex =>
      if regex content then .ok true else matches_pattern en rest content

/-- The `negative_pattern` check of `evaluate_rule` (`src/lib.rs` lines
263-269) together with the final `Ok(true)` (line 273), as the continuation
of the sequential field checks. -/
def check_negative (en : RegexEngine) (neg : Option (List (List Char)))
    (file_contents : List Char) : Except LinguistError Bool :=
  match neg with
  | none => .ok true
  | some neg_pattern =>
    match matches_pattern en neg_pattern file_contents with
    | .error e => .error e
    | .ok true => .ok false
    | .ok false => .ok true

/-- The positive `pattern` check of `evaluate_rule` (`src/lib.rs` lines
255-261), falling through to the `negative_pattern` check. -/
def check_positive (en : RegexEngine) (pat neg : Option (List (List Char)))
    (file_contents : List Char) : Except LinguistError Bool :=
  match pat with
  | none => check_negative en neg file_contents
  | some pattern =>
    match matches_pattern en pattern file_contents with
    | .error e => .error e
    | .ok false => .ok false
    | .ok true => check_negative en neg file_contents

/-- The `named_pattern` check of `evaluate_rule` (`src/lib.rs` lines 240-253),
run first among the non-`and` fields, falling through to the `pattern` check. -/
def check_named (en : RegexEngine) (np : List (List Char × List (List Char)))
    (named : Option (List Char)) (pat neg : Option (List (List Char)))
    (file_contents : List Char) : Except LinguistError Bool :=
  match named with
  | none => check_positive en pat neg file_contents
  | some named_pattern =>
    match lookupTable np named_pattern with
    | none => .error (.MissingNamedPattern named_pattern)
    | some pattern =>
      match matches_pattern en pattern file_contents with
      | .error e => .error e
      | .ok false => .ok false
      | .ok true => check_positive en pat neg file_contents

mutual

/-- `evaluate_rule` from `src/lib.rs` lines 228-274: if the `and` field is
present every sub-rule must hold and no other field is consulted; otherwise
the `named_pattern`, `pattern` and `negative_pattern` checks run in sequence
and an unconditional rule evaluates to true. -/
def evaluate_rule (en : RegexEngine) (np : List (List Char × List (List Char)))
    (rule : HeuristicRule) (file_contents : List Char) : Except LinguistError Bool :=
  match rule with
  | .mk _ pat neg named andField =>
    match andField with
    | some and_rules => evaluate_subrules en np and_rules file_contents
    | none => check_named en np named pat neg file_contents

/-- The `and` loop of `evaluate_rule` (`src/lib.rs` lines 231-238): evaluate
sub-rules in order, return false at the first failing one (or propagate its
error), true once all succeeded. -/
def evaluate_subrules (en : RegexEngine) (np : List (List Char × List (List Char)))
    (rules : List HeuristicRule) (file_contents : List Char) : Except LinguistError Bool :=
  match rules with
  | [] => .ok true
  | sub_rule :: rest =>
    match evaluate_rule en np sub_rule file_contents with
    | .error e => .error e
    | .ok false => .ok false
    | .ok true => evaluate_subrules en np rest file_contents

end

/-- The language-name resolution loop inside `disambiguate` (`src/lib.rs`
lines 199-207): keep the names found in the language table, in rule order. -/
def resolve_langs (langs : List (List Char × LanguageDef)) :
    List (List Char) → List (List Char × LanguageDef)
  | [] => []
  | lang_name :: rest =>
    match lookupTable langs lang_name with
    | some lang_def => (lang_name, lang_def) :: resolve_langs langs rest
    | none => resolve_langs langs rest

/-- The rule loop of `disambiguate` over a matching disambiguation block
(`src/lib.rs` lines 196-215): the first rule that evaluates true and carries a
`language` field determines the result; rule errors propagate; if the block is
exhausted the result is `Ok(None)`. -/
def rules_scan (en : RegexEngine) (np : List (List Char × List (List Char)))
    (langs : List (List Char × LanguageDef)) (rules : List HeuristicRule)
    (file_contents : List Char) :
    Except LinguistError (Option (List (List Char × LanguageDef))) :=
  match rules with
  | [] => .ok none
  | rule :: rest =>
    match evaluate_rule en np rule file_contents with
    | .error e => .error e
    | .ok true =>
      match rule.language with
      | some lang_names => .ok (some (resolve_langs langs lang_names))
      | none => rules_scan en np langs rest file_contents
    | .ok false => rules_scan en np langs rest file_contents

/-- The block loop of `disambiguate` (`src/lib.rs` lines 191-218): take the
first disambiguation block, in declared order, that registers any of the
candidate extensions; scan its rules and return — whatever the outcome, no
further block (and no other candidate extension) is consulted. -/
def blocks_scan (en : RegexEngine) (np : List (List Char × List (List Char)))
    (langs : List (List Char × LanguageDef)) (cands : List (List Char))
    (blocks : List Disambiguation) (file_contents : List Char) :
    Except LinguistError (Option (List (List Char × LanguageDef))) :=
  match blocks with
  | [] => .ok none
  | d :: rest =>
    if cands.any (fun ext => d.extensions.contains ext)
    then rules_scan en np langs d.rules file_contents
    else blocks_scan en np langs cands rest file_contents

/-- `disambiguate` from `src/lib.rs` lines 160-224, with the heuristics table
and language table passed explicitly. -/
def disambiguate (en : RegexEngine) (heur : Heuristics)
    (langs : List (List Char × LanguageDef)) (p : RustPath) (file_contents : List Char) :
    Except LinguistError (Option (List (List Char × LanguageDef))) :=
  match get_filename p with
  | .error e => .error e
  | .ok f =>
    blocks_scan en heur.named_patterns langs (disambExtensions f)
      heur.disambiguations file_contents

/-- `is_vendored` from `src/lib.rs` lines 321-330: convert the whole path to a
string and delegate to `matches_pattern` over the vendor pattern list. -/
def is_vendored (en : RegexEngine) (vendor : List (List Char)) (p : RustPath) :
    Except LinguistError Bool :=
  match p.to_str with
  | none => .error (.InvalidPath p.debug_repr)
  | some path_str => matches_pattern en vendor path_str

-- A `DecidableEq` instance for `Except`, used only to evaluate concrete runs
-- of the embedded operations inside proofs.
deriving instance DecidableEq for Except

/-! ### Spec-side comparison definitions

The following definitions follow the wording of the specification (not the
source); they exist only to be compared against the source-derived
definitions above. -/

/-- De-duplication by language name keeping the first occurrence, as in the
spec wording of `by_extension` (spec §4.4: "union matches across all candidate
extensions while de-duplicating by language name, preserving first-seen
order"). -/
def dedup_by_name (seen : List (List Char)) :
    List (List Char × LanguageDef) → List (List Char × LanguageDef)
  | [] => []
  | e :: rest =>
    if seen.contains e.1 then dedup_by_name seen rest
    else e :: dedup_by_name (e.1 :: seen) rest

/-- The spec's wording of `by_extension` (spec §4.4, quoted by claim C2):
"extract extensions (§4.2), look up each in the extension index, union matches
across all candidate extensions while de-duplicating by language name,
preserving first-seen order (most-specific extension first)". -/
def spec_by_extension (langs : List (List Char × LanguageDef)) (f : List Char) :
    List (List Char × LanguageDef) :=
  dedup_by_name []
    ((extract_extensions f).flatMap (fun ext =>
      langs.filter (fun e => (e.2.extensions.getD []).contains ext)))

/-- The spec's wording of the disambiguation lookup (spec §4.3 steps 1-2 and
claim C6): candidate extensions via `extract_extensions`, consulted in
specific-to-general order; only the first candidate extension that has any
registered disambiguation block is consulted, via the first block registered
for it. -/
def spec_disambiguate (en : RegexEngine) (heur : Heuristics)
    (langs : List (List Char × LanguageDef)) (f : List Char) (file_contents : List Char) :
    Except LinguistError (Option (List (List Char × LanguageDef))) :=
  match (extract_extensions f).find? (fun ext =>
      heur.disambiguations.any (fun d => d.extensions.contains ext)) with
  | none => .ok none
  | some ext =>
    match heur.disambiguations.find? (fun d => d.extensions.contains ext) with
    | none => .ok none
    | some d => rules_scan en heur.named_patterns langs d.rules file_contents

/-! ### Concrete fixtures

Closed data used by counterexamples and witnesses: a concrete regex engine
(patterns are matched as literal prefixes; the single pattern `(` fails to
compile, as it does under the `regex` crate), small language tables,
heuristics tables and paths. -/

/-- A concrete regex engine for closed runs: every pattern compiles to a
literal prefix matcher except `(`, which fails to compile. -/
def testEngine : RegexEngine where
  compile p :=
    if p = chars (r"(") then .error (chars (r"unclosed group"))
    else .ok (fun content => p.isPrefixOf content)

/-- A language-table entry with the given extension list and defaulted
metadata. -/
def mkTestLang (exts : Option (List (List Char))) : LanguageDef where
  language_type := .programming
  ace_mode := []
  tm_scope := []
  language_id := 0
  extensions := exts
  filenames := none
  aliases := none
  interpreters := none
  color := none
  codemirror_mode := none
  codemirror_mime_type := none
  group := none
  fs_name := none
  wrap := none

/-- Language `A`, registered for the compound extension `.d.ts` only. -/
def langA : List Char × LanguageDef := (chars (r"A"), mkTestLang (some [chars (r".d.ts")]))

/-- Language `B`, registered for the simple extension `.ts` only. -/
def langB : List Char × LanguageDef := (chars (r"B"), mkTestLang (some [chars (r".ts")]))

/-- A two-language table in which the `.d.ts` language iterates first. -/
def langsDT : List (List Char × LanguageDef) := [langA, langB]

/-- A path whose filename is `x.d.ts`. -/
def pathDTS : RustPath where
  file_name := some (some (chars (r"x.d.ts")))
  to_str := some (chars (r"x.d.ts"))
  debug_repr := chars (r"x.d.ts")

/-- A path with no final filename component, as produced by `Path::new("/")`. -/
def rootPath : RustPath where
  file_name := none
  to_str := some (chars (r"/"))
  debug_repr := chars (r"/")

/-- A vendor-ish path used by the `is_vendored` runs. -/
def plainPath : RustPath where
  file_name := some (some (chars (r"x")))
  to_str := some (chars (r"x"))
  debug_repr := chars (r"x")

/-- An unconditional rule carrying only a `language` field (a terminal
fallback). -/
def fallbackRule (names : List (List Char)) : HeuristicRule :=
  .mk (some names) none none none none

/-- A disambiguation block registered for the compound extension `.a.b`,
classifying as `L1`. -/
def blockAB : Disambiguation where
  extensions := [chars (r".a.b")]
  rules := [fallbackRule [chars (r"L1")]]

/-- A disambiguation block registered for the simple extension `.b`,
classifying as `L2`. -/
def blockB : Disambiguation where
  extensions := [chars (r".b")]
  rules := [fallbackRule [chars (r"L2")]]

/-- A heuristics table declaring the `.a.b` block before the `.b` block. -/
def heurTwo : Heuristics where
  disambiguations := [blockAB, blockB]
  named_patterns := []

/-- A language table resolving the names `L1` and `L2`. -/
def langsL : List (List Char × LanguageDef) :=
  [(chars (r"L1"), mkTestLang none), (chars (r"L2"), mkTestLang none)]

/-- A path whose filename is `x.a.b`. -/
def pathAB : RustPath where
  file_name := some (some (chars (r"x.a.b")))
  to_str := some (chars (r"x.a.b"))
  debug_repr := chars (r"x.a.b")

/-- A named-pattern table binding `np1` to the single alternative `a`. -/
def npA : List (List Char × List (List Char)) := [(chars (r"np1"), [chars (r"a")])]

/-- A leaf rule whose only condition is the named pattern `np1`. -/
def ruleNamedOnly : HeuristicRule := .mk none none none (some (chars (r"np1"))) none

/-- A rule that references an absent named pattern but also carries an `and`
list consisting of one unconditional sub-rule. -/
def ruleAndNamed : HeuristicRule :=
  .mk none none none (some (chars (r"missing"))) (some [.mk none none none none none])

/-- The boolean outcome of testing one pattern against content under a given
engine: `false` both for a non-match and for a pattern that does not compile
(used only to state properties; the operations above never conflate the two). -/
def patternMatches (en : RegexEngine) (p content : List Char) : Bool :=
  match en.compile p with
  | .ok regex => regex content
  | .error _ => false

/-- Whether any alternative of a pattern list matches the content. -/
def list_matches (en : RegexEngine) (ps : List (List Char)) (content : List Char) : Bool :=
  ps.any (fun p => patternMatches en p content)

/-- The contribution of the `named_pattern` field to a leaf rule's outcome:
vacuously true when absent; requires the name to resolve and the resolved
alternatives to match when present. -/
def named_cond (en : RegexEngine) (np : List (List Char × List (List Char)))
    (named : Option (List Char)) (content : List Char) : Bool :=
  match named with
  | none => true
  | some n =>
    match lookupTable np n with
    | none => false
    | some ps => list_matches en ps content

/-- The contribution of the `pattern` field to a leaf rule's outcome. -/
def pattern_cond (en : RegexEngine) (pat : Option (List (List Char)))
    (content : List Char) : Bool :=
  match pat with
  | none => true
  | some ps => list_matches en ps content

/-- The contribution of the `negative_pattern` field to a leaf rule's outcome. -/
def negative_cond (en : RegexEngine) (neg : Option (List (List Char)))
    (content : List Char) : Bool :=
  match neg with
  | none => true
  | some ps => !(list_matches en ps content)

/-- A leaf rule whose only condition is the positive pattern `z`. -/
def rulePat : HeuristicRule := .mk none (some [chars (r"z")]) none none none

/-! ### Helper lemmas -/

theorem head?_drop_eq {f : List Char} {p : Nat} (h : p < f.length) :
    (f.drop p).head? = f[p]? := by
  rw [List.drop_eq_getElem_cons h]
  simp [List.getElem?_eq_getElem h]

theorem mem_dotPositions {f : List Char} {p : Nat} :
    p ∈ dotPositions f ↔ f[p]? = some '.' := by
  unfold dotPositions
  simp only [List.mem_map, List.mem_filter, Prod.exists]
  constructor
  · rintro ⟨i, c, ⟨hmem, hc⟩, rfl⟩
    have hc' : c = '.' := by simpa using hc
    subst hc'
    exact (List.mk_mem_enum_iff_getElem?).mp hmem
  · intro h
    exact ⟨p, '.', ⟨(List.mk_mem_enum_iff_getElem?).mpr (by simpa using h), by simp⟩, rfl⟩

theorem mem_dotPositions_lt {f : List Char} {p : Nat} (h : p ∈ dotPositions f) :
    p < f.length := by
  rw [mem_dotPositions] at h
  exact (List.getElem?_eq_some.mp h).1

theorem dotPositions_pairwise (f : List Char) : (dotPositions f).Pairwise (· < ·) := by
  have h1 : List.Sublist (dotPositions f) (f.enum.map Prod.fst) :=
    (List.filter_sublist _).map Prod.fst
  rw [List.enum_map_fst] at h1
  exact List.Pairwise.sublist h1 (List.pairwise_lt_range _)

theorem mem_extract_extensions {f s : List Char} :
    s ∈ extract_extensions f ↔ s <:+ f ∧ s.head? = some '.' := by
  unfold extract_extensions
  simp only [List.mem_map, List.mem_reverse]
  constructor
  · rintro ⟨p, hp, rfl⟩
    have hlt := mem_dotPositions_lt hp
    rw [mem_dotPositions] at hp
    exact ⟨List.drop_suffix _ _, by rw [head?_drop_eq hlt]; exact hp⟩
  · rintro ⟨⟨t, rfl⟩, hh⟩
    refine ⟨t.length, ?_, List.drop_left t s⟩
    rw [mem_dotPositions, List.getElem?_append_right (Nat.le_refl _)]
    simpa [List.head?_eq_getElem?] using hh

theorem extract_extensions_head? (f : List Char) :
    (extract_extensions f).head? = ((dotPositions f).getLast?).map (fun p => f.drop p) := by
  unfold extract_extensions
  rw [List.head?_map, List.head?_reverse]

theorem extract_extensions_getLast? (f : List Char) :
    (extract_extensions f).getLast? = ((dotPositions f).head?).map (fun p => f.drop p) := by
  unfold extract_extensions
  rw [List.getLast?_map, List.getLast?_reverse]

theorem extract_extensions_length (f : List Char) :
    (extract_extensions f).length = (dotPositions f).length := by
  unfold extract_extensions
  rw [List.length_map, List.length_reverse]

theorem dotPositions_eq_nil {f : List Char} : dotPositions f = [] ↔ ¬ '.' ∈ f := by
  simp only [dotPositions, List.map_eq_nil_iff, List.filter_eq_nil_iff]
  constructor
  · intro h hmem
    obtain ⟨i, hi⟩ := List.mem_iff_getElem?.mp hmem
    exact h (i, '.') ((List.mk_mem_enum_iff_getElem?).mpr (by simpa using hi)) (by simp)
  · rintro h ⟨i, c⟩ hmem hc
    have hc' : c = '.' := by simpa using hc
    subst hc'
    have := (List.mk_mem_enum_iff_getElem?).mp hmem
    exact h (List.mem_iff_getElem?.mpr ⟨i, by simpa using this⟩)

theorem extract_extensions_eq_nil {f : List Char} :
    extract_extensions f = [] ↔ ¬ '.' ∈ f := by
  rw [← dotPositions_eq_nil]
  unfold extract_extensions
  simp [List.map_eq_nil_iff, List.reverse_eq_nil_iff]

theorem extract_extensions_sorted (f : List Char) :
    (extract_extensions f).Pairwise (fun a b => a.length < b.length) := by
  unfold extract_extensions
  rw [List.pairwise_map, List.pairwise_reverse]
  refine List.Pairwise.imp_of_mem ?_ (dotPositions_pairwise f)
  intro a b ha _ hab
  have hlt := mem_dotPositions_lt ha
  simp only [List.length_drop]
  omega

theorem matches_pattern_wf {en : RegexEngine} {ps : List (List Char)} {c : List Char}
    (h : ∀ q ∈ ps, (en.compile q).isOk) :
    matches_pattern en ps c = .ok (list_matches en ps c) := by
  induction ps with
  | nil => rfl
  | cons p rest ih =>
    have hp := h p (List.mem_cons_self p rest)
    cases hc : en.compile p with
    | error e => rw [hc] at hp; simp [Except.isOk, Except.toBool] at hp
    | ok regex =>
      have ih' := ih (fun q hq => h q (List.mem_cons_of_mem p hq))
      simp only [matches_pattern, hc, list_matches, List.any_cons, patternMatches]
      cases hr : regex c with
      | true => simp
      | false => simpa [list_matches] using ih'

theorem check_negative_wf {en : RegexEngine} {neg : Option (List (List Char))}
    {c : List Char} (h : ∀ ps, neg = some ps → ∀ q ∈ ps, (en.compile q).isOk) :
    check_negative en neg c = .ok (negative_cond en neg c) := by
  cases neg with
  | none => rfl
  | some ps =>
    simp only [check_negative, negative_cond, matches_pattern_wf (h ps rfl)]
    cases hv : list_matches en ps c <;> simp

theorem check_positive_wf {en : RegexEngine} {pat neg : Option (List (List Char))}
    {c : List Char}
    (hp : ∀ ps, pat = some ps → ∀ q ∈ ps, (en.compile q).isOk)
    (hn : ∀ ps, neg = some ps → ∀ q ∈ ps, (en.compile q).isOk) :
    check_positive en pat neg c =
      .ok (pattern_cond en pat c && negative_cond en neg c) := by
  cases pat with
  | none =>
    simp only [check_positive, pattern_cond, Bool.true_and]
    exact check_negative_wf hn
  | some ps =>
    simp only [check_positive, pattern_cond, matches_pattern_wf (hp ps rfl)]
    cases hv : list_matches en ps c with
    | false => simp
    | true => simpa using check_negative_wf hn

/-! ### Claim theorems -/

/-- Claim C5: for a filename with dot positions `p1 < p2 < … < pn`,
`extract_extensions` returns exactly the dot-suffixes
`[filename[pn:], …, filename[p1:]]` — shortest first, strictly increasing in
length — the empty sequence when the filename has no dot, and in particular
`[".c", ".b.c", ".a.b.c"]` on `"complex.a.b.c"` and `[]` on
`"no-extension"`.  (The membership characterisation together with the strict
length ordering determines the output list uniquely.) -/
theorem C5_extract_extensions :
    (∀ f : List Char,
      (∀ s, s ∈ extract_extensions f ↔ s <:+ f ∧ s.head? = some '.')
      ∧ (extract_extensions f).Pairwise (fun a b => a.length < b.length)
      ∧ (extract_extensions f = [] ↔ ¬ '.' ∈ f))
    ∧ extract_extensions (chars (r"complex.a.b.c")) =
        [chars (r".c"), chars (r".b.c"), chars (r".a.b.c")]
    ∧ extract_extensions (chars (r"no-extension")) = [] := by
  refine ⟨fun f => ⟨fun s => mem_extract_extensions, extract_extensions_sorted f,
    extract_extensions_eq_nil⟩, by decide, by decide⟩

/-- Claim C1 counterexample: on the filename `complex.a.b.c` the candidate
extensions computed inside `disambiguate` are `[".a.b.c", ".c"]` — the
longest suffix first and the middle suffix `".b.c"` missing — which differs
from the Extension Extractor's `[".c", ".b.c", ".a.b.c"]`. -/
theorem C1_counterexample :
    disambExtensions (chars (r"complex.a.b.c")) = [chars (r".a.b.c"), chars (r".c")]
    ∧ disambExtensions (chars (r"complex.a.b.c")) ≠
        extract_extensions (chars (r"complex.a.b.c")) := by
  exact ⟨by decide, by decide⟩

/-- Claim C1 (amended): `disambiguate` computes at most two candidate
extensions — for a filename with at least two dots, the longest dot-suffix
(from the first dot) followed by the shortest (from the last dot), i.e. the
last and the head of the Extension Extractor's list in that
(general-to-specific) order; with at most one dot the two computations
agree. -/
theorem C1_disambiguate_extensions (f : List Char) :
    (disambExtensions f).length ≤ 2
    ∧ disambExtensions f =
        (if 2 ≤ (extract_extensions f).length
         then (extract_extensions f).getLast?.toList ++ (extract_extensions f).head?.toList
         else extract_extensions f) := by
  have hpw := dotPositions_pairwise f
  have hhead := extract_extensions_head? f
  have hlast := extract_extensions_getLast? f
  have hlen := extract_extensions_length f
  cases hdp : dotPositions f with
  | nil =>
    rw [hdp] at hhead hlast hlen
    unfold disambExtensions
    rw [hdp]
    simp only [List.head?_nil]
    have h0 : (extract_extensions f).length = 0 := by rw [hlen]; rfl
    constructor
    · simp
    · rw [if_neg (by omega)]
      unfold extract_extensions
      rw [hdp]
      simp
  | cons p rest =>
    cases rest with
    | nil =>
      rw [hdp] at hhead hlast hlen
      unfold disambExtensions
      rw [hdp]
      simp only [List.head?_cons, List.getLast?_singleton, ne_eq, not_true_eq_false,
        ite_false, if_neg]
      constructor
      · simp
      · have h1 : (extract_extensions f).length = 1 := by rw [hlen]; rfl
        rw [if_neg (by omega)]
        unfold extract_extensions
        rw [hdp]
        simp
    | cons q rest2 =>
      rw [hdp] at hpw hhead hlast hlen
      obtain ⟨l, hl⟩ : ∃ l, (q :: rest2).getLast? = some l :=
        Option.isSome_iff_exists.mp (List.getLast?_isSome.mpr (by simp))
      have hmem : l ∈ q :: rest2 := List.mem_of_getLast?_eq_some hl
      have hpl : p < l := (List.pairwise_cons.mp hpw).1 l hmem
      unfold disambExtensions
      rw [hdp]
      simp only [List.head?_cons, List.getLast?_cons_cons, hl]
      rw [if_pos (by omega)]
      refine ⟨by simp, ?_⟩
      have h2 : (extract_extensions f).length = rest2.length + 2 := by rw [hlen]; simp
      rw [if_pos (by omega)]
      rw [List.getLast?_cons_cons, hl] at hhead
      rw [List.head?_cons] at hlast
      rw [hhead, hlast]
      simp

/-- Claim C4: at the failing input `/` (a path with no final filename
component) both `detect_language_by_extension` and
`detect_language_by_filename` return `InvalidPath("Not a filename")`, not the
`NoFilename` error that `src/error.rs` declares and documents for exactly
this case (the `NoFilename` variant is never constructed anywhere in the
sources). -/
theorem C4_no_filename_run :
    detect_language_by_extension [] rootPath = .error (.InvalidPath notAFilenameMsg)
    ∧ detect_language_by_filename [] rootPath = .error (.InvalidPath notAFilenameMsg)
    ∧ LinguistError.InvalidPath notAFilenameMsg ≠ LinguistError.NoFilename := by
  exact ⟨rfl, rfl, by decide⟩

theorem has_matching_ext_iff {f : List Char} {lang : LanguageDef}
    (hdot : ∀ ext ∈ lang.extensions.getD [], ext.head? = some '.') :
    has_matching_ext f lang = true ↔
      ∃ ext ∈ lang.extensions.getD [], ext ∈ extract_extensions f := by
  cases hx : lang.extensions with
  | none => simp [has_matching_ext, hx]
  | some exts =>
    rw [hx] at hdot
    simp only [has_matching_ext, hx, Option.getD_some, List.any_eq_true] at hdot ⊢
    constructor
    · rintro ⟨ext, hmem, hsuf⟩
      exact ⟨ext, hmem, mem_extract_extensions.mpr
        ⟨List.isSuffixOf_iff_suffix.mp hsuf, hdot ext hmem⟩⟩
    · rintro ⟨ext, hmem, hext⟩
      exact ⟨ext, hmem,
        List.isSuffixOf_iff_suffix.mpr (mem_extract_extensions.mp hext).1⟩

/-- Claim C2 counterexample: with a language table iterating the `.d.ts`-only
language `A` before the `.ts`-only language `B`, the code returns `[A, B]` on
filename `x.d.ts` — table order — whereas the claimed ordering (matches for
the most specific candidate extension `.ts` first) yields `[B, A]`. -/
theorem C2_counterexample :
    detect_language_by_extension langsDT pathDTS = .ok [langA, langB]
    ∧ spec_by_extension langsDT (chars (r"x.d.ts")) = [langB, langA]
    ∧ ([langA, langB] : List (List Char × LanguageDef)) ≠ [langB, langA] := by
  exact ⟨by decide, by decide, by decide⟩

/-- Claim C2 (amended): for every path with a UTF-8 filename, and a language
table whose registered extensions all begin with a dot (the dataset
invariant), `detect_language_by_extension` returns exactly the table entries
having at least one registered extension among the filename's candidate
extensions, each entry at most once (the result is a sublist of the table, so
it is duplicate-free whenever the table is), but ordered by the language
table's iteration order, not by candidate-extension specificity. -/
theorem C2_by_extension (langs : List (List Char × LanguageDef)) (p : RustPath)
    (f : List Char) (hf : p.file_name = some (some f))
    (hdot : ∀ e ∈ langs, ∀ ext ∈ e.2.extensions.getD [], ext.head? = some '.') :
    detect_language_by_extension langs p = .ok (by_extension_scan f langs)
    ∧ List.Sublist (by_extension_scan f langs) langs
    ∧ (langs.Nodup → (by_extension_scan f langs).Nodup)
    ∧ ∀ e, e ∈ by_extension_scan f langs ↔
        e ∈ langs ∧ ∃ ext ∈ e.2.extensions.getD [], ext ∈ extract_extensions f := by
  refine ⟨by simp [detect_language_by_extension, get_filename, hf],
    List.filter_sublist langs,
    fun h => (List.filter_sublist langs).nodup h, fun e => ?_⟩
  unfold by_extension_scan
  rw [List.mem_filter]
  constructor
  · rintro ⟨hmem, hmatch⟩
    exact ⟨hmem, (has_matching_ext_iff (hdot e hmem)).mp hmatch⟩
  · rintro ⟨hmem, hex⟩
    exact ⟨hmem, (has_matching_ext_iff (hdot e hmem)).mpr hex⟩

/-- Claim C2 witness: the amended theorem instantiated at the concrete
two-language table and the path `x.d.ts`. -/
theorem C2_by_extension_witness :
    detect_language_by_extension langsDT pathDTS =
      .ok (by_extension_scan (chars (r"x.d.ts")) langsDT)
    ∧ List.Sublist (by_extension_scan (chars (r"x.d.ts")) langsDT) langsDT :=
  ⟨(C2_by_extension langsDT pathDTS (chars (r"x.d.ts")) rfl (by decide)).1,
   (C2_by_extension langsDT pathDTS (chars (r"x.d.ts")) rfl (by decide)).2.1⟩

theorem matches_pattern_append_nomatch {en : RegexEngine} {pre rest : List (List Char)}
    {c : List Char}
    (h : ∀ q ∈ pre, ∃ r, en.compile q = .ok r ∧ r c = false) :
    matches_pattern en (pre ++ rest) c = matches_pattern en rest c := by
  induction pre with
  | nil => rfl
  | cons q qs ih =>
    obtain ⟨r, hq, hr⟩ := h q (List.mem_cons_self q qs)
    simp only [List.cons_append, matches_pattern, hq, hr, Bool.false_eq_true, if_false]
    exact ih (fun x hx => h x (List.mem_cons_of_mem q hx))

/-- Claim C3 counterexample: a vendor list holding the single malformed
pattern `(` makes `is_vendored` fail with `InvalidRegex` — the pattern is not
skipped and the claimed `Ok(false)` is not produced. -/
theorem C3_counterexample :
    is_vendored testEngine [chars (r"(")] plainPath =
      .error (.InvalidRegex (chars (r"(")) (chars (r"unclosed group")))
    ∧ is_vendored testEngine [chars (r"(")] plainPath ≠ .ok false := by
  exact ⟨by decide, by decide⟩

/-- Claim C3 (amended): `is_vendored` matches the raw path string against the
vendor patterns in order and propagates `InvalidRegex` instead of skipping:
when every vendor pattern compiles it returns `Ok(true)` iff at least one
pattern matches the full path string (and never fails), but the first
malformed pattern reached before any match surfaces as an `InvalidRegex`
error. -/
theorem C3_is_vendored :
    (∀ (en : RegexEngine) (vendor : List (List Char)) (p : RustPath) (s : List Char),
      p.to_str = some s →
      (∀ q ∈ vendor, (en.compile q).isOk) →
      is_vendored en vendor p = .ok (vendor.any (fun q => patternMatches en q s)))
    ∧ (∀ (en : RegexEngine) (pre post : List (List Char)) (bad : List Char)
        (p : RustPath) (s e : List Char),
      p.to_str = some s →
      (∀ q ∈ pre, ∃ r, en.compile q = .ok r ∧ r s = false) →
      en.compile bad = .error e →
      is_vendored en (pre ++ bad :: post) p = .error (.InvalidRegex bad e)) := by
  constructor
  · intro en vendor p s hs hwf
    simp only [is_vendored, hs]
    exact matches_pattern_wf hwf
  · intro en pre post bad p s e hs hpre hbad
    simp only [is_vendored, hs]
    rw [matches_pattern_append_nomatch hpre]
    simp [matches_pattern, hbad]

/-- Claim C3 witness: the amended theorem instantiated with a well-formed
singleton vendor list (first conjunct) and with the malformed pattern `(` in
second position after a matching pattern-free prefix (second conjunct). -/
theorem C3_is_vendored_witness :
    is_vendored testEngine [chars (r"x")] plainPath =
      .ok ([chars (r"x")].any (fun q => patternMatches testEngine q (chars (r"x"))))
    ∧ is_vendored testEngine ([chars (r"y")] ++ chars (r"(") :: []) plainPath =
      .error (.InvalidRegex (chars (r"(")) (chars (r"unclosed group"))) :=
  ⟨C3_is_vendored.1 testEngine [chars (r"x")] plainPath (chars (r"x")) rfl (by decide),
   C3_is_vendored.2 testEngine [chars (r"y")] [] (chars (r"(")) plainPath
     (chars (r"x")) (chars (r"unclosed group")) rfl
     (by
       intro q hq
       rw [List.mem_singleton] at hq
       subst hq
       exact ⟨fun content => (chars (r"y")).isPrefixOf content, rfl, rfl⟩)
     rfl⟩

/-- Claim C10: `matches_pattern` compiles and tests the patterns in list
order: after a prefix of well-formed non-matching patterns, a pattern that
compiles and matches makes the whole call return `Ok(true)` whatever follows
it (so a malformed pattern after the first match raises no `InvalidRegex`),
while a malformed pattern reached before any match surfaces as
`Err(InvalidRegex)` carrying that pattern. -/
theorem C10_matches_pattern :
    (∀ (en : RegexEngine) (pre post : List (List Char)) (q c : List Char)
        (r : List Char → Bool),
      (∀ x ∈ pre, ∃ r0, en.compile x = .ok r0 ∧ r0 c = false) →
      en.compile q = .ok r → r c = true →
      matches_pattern en (pre ++ q :: post) c = .ok true)
    ∧ (∀ (en : RegexEngine) (pre post : List (List Char)) (q c e : List Char),
      (∀ x ∈ pre, ∃ r0, en.compile x = .ok r0 ∧ r0 c = false) →
      en.compile q = .error e →
      matches_pattern en (pre ++ q :: post) c = .error (.InvalidRegex q e)) := by
  constructor
  · intro en pre post q c r hpre hq hr
    rw [matches_pattern_append_nomatch hpre]
    simp [matches_pattern, hq, hr]
  · intro en pre post q c e hpre hq
    rw [matches_pattern_append_nomatch hpre]
    simp [matches_pattern, hq]

/-- Claim C10 witness: the pattern list `["z", "("]` on content `"zebra"`
returns `Ok(true)` although its second pattern is malformed, because the
first pattern already matches. -/
theorem C10_matches_pattern_witness :
    matches_pattern testEngine [chars (r"z"), chars (r"(")] (chars (r"zebra")) = .ok true :=
  C10_matches_pattern.1 testEngine [] [chars (r"(")] (chars (r"z")) (chars (r"zebra"))
    (fun content => (chars (r"z")).isPrefixOf content) (by simp) rfl rfl

theorem blocks_scan_skip {en : RegexEngine} {np : List (List Char × List (List Char))}
    {langs : List (List Char × LanguageDef)} {cands : List (List Char)}
    {c : List Char} {pre rest : List Disambiguation}
    (h : ∀ b ∈ pre, cands.any (fun ext => b.extensions.contains ext) = false) :
    blocks_scan en np langs cands (pre ++ rest) c = blocks_scan en np langs cands rest c := by
  induction pre with
  | nil => rfl
  | cons b bs ih =>
    simp only [List.cons_append, blocks_scan, h b (List.mem_cons_self b bs),
      Bool.false_eq_true, if_false]
    exact ih (fun x hx => h x (List.mem_cons_of_mem b hx))

/-- Claim C6 counterexample: with the block for the general extension `.a.b`
declared before the block for the specific extension `.b`, `disambiguate` on
filename `x.a.b` answers `L1` from the `.a.b` block, whereas consulting the
first candidate extension that has a registered block (the most specific,
`.b`) would answer `L2`: block selection is by block declaration order, not
by candidate-extension order. -/
theorem C6_counterexample :
    disambiguate testEngine heurTwo langsL pathAB (chars (r"c")) =
      .ok (some [(chars (r"L1"), mkTestLang none)])
    ∧ spec_disambiguate testEngine heurTwo langsL (chars (r"x.a.b")) (chars (r"c")) =
      .ok (some [(chars (r"L2"), mkTestLang none)])
    ∧ disambiguate testEngine heurTwo langsL pathAB (chars (r"c")) ≠
      spec_disambiguate testEngine heurTwo langsL (chars (r"x.a.b")) (chars (r"c")) := by
  exact ⟨by decide, by decide, by decide⟩

/-- Claim C6 (amended): `disambiguate` consults exactly one disambiguation
block — the first block in declaration order that registers any of the (at
most two) candidate extensions: the whole result equals the scan of that
block's rules, so when no rule of that block produces a language the result
is empty and neither the remaining blocks nor the other candidate extension
are retried. -/
theorem C6_first_block (en : RegexEngine) (heur : Heuristics)
    (langs : List (List Char × LanguageDef)) (p : RustPath) (c f : List Char)
    (pre post : List Disambiguation) (d : Disambiguation)
    (hf : p.file_name = some (some f))
    (hblocks : heur.disambiguations = pre ++ d :: post)
    (hpre : ∀ b ∈ pre, (disambExtensions f).any (fun ext => b.extensions.contains ext) = false)
    (hd : (disambExtensions f).any (fun ext => d.extensions.contains ext) = true) :
    disambiguate en heur langs p c = rules_scan en heur.named_patterns langs d.rules c
    ∧ (rules_scan en heur.named_patterns langs d.rules c = .ok none →
        disambiguate en heur langs p c = .ok none) := by
  have hmain : disambiguate en heur langs p c =
      rules_scan en heur.named_patterns langs d.rules c := by
    simp only [disambiguate, get_filename, hf]
    rw [hblocks, blocks_scan_skip hpre]
    simp only [blocks_scan]
    rw [if_pos hd]
  exact ⟨hmain, fun h => hmain.trans h⟩

/-- Claim C6 witness: the amended theorem instantiated at the two-block
heuristics table and the path `x.a.b`, selecting the first declared block. -/
theorem C6_first_block_witness :
    disambiguate testEngine heurTwo langsL pathAB (chars (r"c")) =
      rules_scan testEngine heurTwo.named_patterns langsL blockAB.rules (chars (r"c")) :=
  (C6_first_block testEngine heurTwo langsL pathAB (chars (r"c")) (chars (r"x.a.b"))
    [] [blockB] blockAB rfl rfl (by simp) (by decide)).1

/-- Claim C7 counterexample: `ruleNamedOnly` is a leaf rule (`and` absent)
whose `pattern` and `negative_pattern` fields are absent — so the claimed
conditions hold vacuously — and whose named pattern resolves to the
well-formed pattern `a`; on content `zzz` it nevertheless evaluates to
`Ok(false)`, because the claimed equivalence omits the `named_pattern`
matching condition. -/
theorem C7_counterexample :
    ruleNamedOnly.and = none
    ∧ ruleNamedOnly.pattern = none
    ∧ ruleNamedOnly.negative_pattern = none
    ∧ lookupTable npA (chars (r"np1")) = some [chars (r"a")]
    ∧ (testEngine.compile (chars (r"a"))).isOk = true
    ∧ evaluate_rule testEngine npA ruleNamedOnly (chars (r"zzz")) = .ok false := by
  exact ⟨rfl, rfl, rfl, by decide, by decide, by decide⟩

/-- Claim C7 (amended): a leaf rule (no `and` field) with all of its pattern
fields well-formed evaluates true iff the resolved `named_pattern`
alternatives (when present) match the content, the `pattern` alternatives
(when present) match, and the `negative_pattern` alternatives (when present)
do not; in particular a rule with none of the four fields set evaluates true
for every content. -/
theorem C7_leaf_rule :
    (∀ (en : RegexEngine) (np : List (List Char × List (List Char)))
        (rule : HeuristicRule) (c : List Char),
      rule.and = none →
      (∀ ps, rule.pattern = some ps → ∀ q ∈ ps, (en.compile q).isOk) →
      (∀ ps, rule.negative_pattern = some ps → ∀ q ∈ ps, (en.compile q).isOk) →
      (∀ n ps, rule.named_pattern = some n → lookupTable np n = some ps →
        ∀ q ∈ ps, (en.compile q).isOk) →
      (evaluate_rule en np rule c = .ok true ↔
        (named_cond en np rule.named_pattern c
          && pattern_cond en rule.pattern c
          && negative_cond en rule.negative_pattern c) = true))
    ∧ (∀ (en : RegexEngine) (np : List (List Char × List (List Char)))
        (lang : Option (List (List Char))) (c : List Char),
      evaluate_rule en np (.mk lang none none none none) c = .ok true) := by
  constructor
  · rintro en np ⟨lang, pat, neg, named, andField⟩ c hand hp hn hnm
    simp only [HeuristicRule.and] at hand
    subst hand
    simp only [HeuristicRule.pattern] at hp
    simp only [HeuristicRule.negative_pattern] at hn
    simp only [HeuristicRule.named_pattern] at hnm
    simp only [evaluate_rule, HeuristicRule.pattern, HeuristicRule.negative_pattern,
      HeuristicRule.named_pattern]
    cases named with
    | none =>
      simp only [check_named, named_cond, Bool.true_and]
      rw [check_positive_wf hp hn]
      simp
    | some n =>
      cases hl : lookupTable np n with
      | none =>
        simp only [check_named, hl, named_cond]
        constructor
        · intro h
          exact absurd h (by simp)
        · intro h
          simp at h
      | some ps =>
        simp only [check_named, hl, named_cond,
          matches_pattern_wf (hnm n ps rfl hl)]
        cases hv : list_matches en ps c with
        | false => simp
        | true =>
          rw [check_positive_wf hp hn]
          simp
  · intro en np lang c
    rfl

/-- Claim C7 witness: the amended equivalence instantiated at the concrete
single-pattern rule `rulePat` and the content `zebra`, on which both sides
hold. -/
theorem C7_leaf_rule_witness :
    evaluate_rule testEngine [] rulePat (chars (r"zebra")) = .ok true :=
  (C7_leaf_rule.1 testEngine [] rulePat (chars (r"zebra")) rfl
    (by
      intro ps hps
      simp only [rulePat, HeuristicRule.pattern, Option.some.injEq] at hps
      subst hps
      decide)
    (by intro ps hps; simp [rulePat, HeuristicRule.negative_pattern] at hps)
    (by intro n ps hps; simp [rulePat, HeuristicRule.named_pattern] at hps)).mpr
    (by decide)

/-- Claim C8: a rule whose `and` field is `[A, B]` evaluates exactly as the
short-circuit conjunction of its sub-rules — `A` first, its error or failure
cutting off `B` — and equals `Ok(true)` iff both sub-rules evaluate to
`Ok(true)`; the other fields of the same rule are ignored (they are
universally quantified on both sides). -/
theorem C8_and_rule (en : RegexEngine) (np : List (List Char × List (List Char)))
    (A B : HeuristicRule) (lang pat neg : Option (List (List Char)))
    (named : Option (List Char)) (c : List Char) :
    evaluate_rule en np (.mk lang pat neg named (some [A, B])) c =
      (match evaluate_rule en np A c with
       | .error e => .error e
       | .ok false => .ok false
       | .ok true => evaluate_rule en np B c)
    ∧ (evaluate_rule en np (.mk lang pat neg named (some [A, B])) c = .ok true ↔
        evaluate_rule en np A c = .ok true ∧ evaluate_rule en np B c = .ok true) := by
  have hmain : evaluate_rule en np (.mk lang pat neg named (some [A, B])) c =
      (match evaluate_rule en np A c with
       | .error e => .error e
       | .ok false => .ok false
       | .ok true => evaluate_rule en np B c) := by
    show evaluate_subrules en np [A, B] c = _
    cases hA : evaluate_rule en np A c with
    | error e => simp [evaluate_subrules, hA]
    | ok bA =>
      cases bA with
      | false => simp [evaluate_subrules, hA]
      | true =>
        cases hB : evaluate_rule en np B c with
        | error e => simp [evaluate_subrules, hA, hB]
        | ok bB => cases bB <;> simp [evaluate_subrules, hA, hB]
  refine ⟨hmain, ?_⟩
  rw [hmain]
  cases hA : evaluate_rule en np A c with
  | error e => simp
  | ok bA =>
    cases bA with
    | false => simp
    | true => simp

/-- Claim C9 counterexample: `ruleAndNamed` names the absent pattern
`missing`, yet because its `and` field is present the named pattern is never
consulted and the rule evaluates to `Ok(true)` instead of failing with
`MissingNamedPattern`. -/
theorem C9_counterexample :
    ruleAndNamed.named_pattern = some (chars (r"missing"))
    ∧ lookupTable ([] : List (List Char × List (List Char))) (chars (r"missing")) = none
    ∧ evaluate_rule testEngine [] ruleAndNamed (chars (r"c")) = .ok true := by
  exact ⟨rfl, rfl, by decide⟩

/-- Claim C9 (amended): evaluating a rule without an `and` field whose
`named_pattern` names an entry absent from the named-patterns table fails
with `MissingNamedPattern` carrying that name, whatever the other fields and
the content — the rule is never silently treated as a non-match. -/
theorem C9_missing_named (en : RegexEngine) (np : List (List Char × List (List Char)))
    (lang pat neg : Option (List (List Char))) (n : List Char) (c : List Char)
    (h : lookupTable np n = none) :
    evaluate_rule en np (.mk lang pat neg (some n) none) c =
      .error (.MissingNamedPattern n) := by
  simp [evaluate_rule, check_named, h]

/-- Claim C9 witness: the amended theorem instantiated at a concrete leaf
rule referencing `missing` against an empty named-pattern table. -/
theorem C9_missing_named_witness :
    evaluate_rule testEngine [] (.mk none none none (some (chars (r"missing"))) none)
      (chars (r"c")) = .error (.MissingNamedPattern (chars (r"missing"))) :=
  C9_missing_named testEngine [] none none none (chars (r"missing")) (chars (r"c")) rfl
